import Mathlib

/-!
Verification of the asset utility module of the webstudio builder
(`apps/builder/app/builder/shared/assets/asset-utils.ts`).

The module is shallowly embedded: JavaScript strings are Lean `String`s,
`undefined` is `Option.none`, the `Map` of image extensions is an ordered
association list, the two regular expressions used by `getImageNameAndType`
are executable scanners over character lists, and the `nanoid()` random id
generator is passed in as an explicit argument.  Promise rejection is
`Except.error`.
-/

namespace AssetUtils

/-- JavaScript `suffix.endsWith` on strings: exact suffix test. -/
def jsEndsWith (s suffix : String) : Bool :=
  suffix.data.isSuffixOf s.data

/-- JavaScript `s.startsWith(p)`: exact prefix test. -/
def jsStartsWith (s p : String) : Bool :=
  p.data.isPrefixOf s.data

/-- JavaScript `s.split(sep)` for a one-character separator: all segments,
empty segments preserved (`"".split` gives `[""]`). -/
def splitSlash : List Char → List (List Char)
  | [] => [[]]
  | c :: rest =>
      let r := splitSlash rest
      if c == '/' then [] :: r
      else
        match r with
        | h :: t => (c :: h) :: t
        | [] => [[c]]

/-- The `imageExtensionToMime` map of the source, as an ordered association
list (its keys are pairwise distinct, so a JS `Map` keeps exactly these
entries in this insertion order). -/
def imageExtensionToMime : List (String × String) :=
  [(".gif", "image/gif"),
   (".ico", "image/x-icon"),
   (".jpeg", "image/jpeg"),
   (".jpg", "image/jpeg"),
   (".png", "image/png"),
   (".svg", "image/svg+xml"),
   (".webp", "image/webp")]

/-- `[...imageExtensionToMime.keys()]`. -/
def imageExtensions : List String := imageExtensionToMime.map (fun p => p.1)

/-- `[...imageExtensionToMime.values()]`. -/
def imageMimeTypes : List String := imageExtensionToMime.map (fun p => p.2)

/-- `imageExtensionToMime.get(ext)`: first entry with the given key
(keys are distinct, so this is the map lookup). -/
def mimeForExtension (ext : String) : Option String :=
  (imageExtensionToMime.find? (fun p => p.1 == ext)).map (fun p => p.2)

/-- JavaScript `Array.prototype.indexOf`, which returns the first index whose
element is strictly equal to the argument (modelled as `Option Nat`,
`none` for `-1`). -/
def indexOfAux (m : String) : List String → Nat → Option Nat
  | [], _ => none
  | x :: rest, i => if x == m then some i else indexOfAux m rest (i + 1)

/-- `getImageExtensionForMimeType`: index of the MIME type in the values
list, then the extension at the same index (or `undefined`). -/
def getImageExtensionForMimeType (mimeType : String) : Option String :=
  match indexOfAux mimeType imageMimeTypes 0 with
  | some i => imageExtensions[i]?
  | none => none

/-- First extension of the table, in declaration order, whose mapped MIME
type is the given one.  This is the specification's description of
`getImageExtensionForMimeType`, stated independently of the code. -/
def firstExtensionForMime (m : String) : Option String :=
  (imageExtensionToMime.find? (fun p => p.2 == m)).map (fun p => p.1)

/-- JavaScript `\w`: ASCII letters, digits and underscore. -/
def isWordChar (c : Char) : Bool := c.isAlphanum || c == '_'

/-- Case-insensitive match of the (lowercase) pattern at the head of `s`,
with a word boundary before the pattern (`prev` is the character right
before `s`, `none` at the start of the string). -/
def lowerHeadMatch (pat : List Char) (prev : Option Char) (s : List Char) : Bool :=
  ((s.take pat.length).map Char.toLower == pat) &&
  (match prev with
   | none => true
   | some c => !isWordChar c)

/-- Word boundary after a pattern that ends in a word character: end of
string or a non-word character. -/
def rightBoundary (s : List Char) : Bool :=
  match s with
  | [] => true
  | c :: _ => !isWordChar c

/-- `/\bPAT\b/i.test(s)` for a pattern made of word characters and hyphens
(so the outer boundaries are the only ones that matter):
scan every position of `s`. -/
def testWordBounded (pat : List Char) (prev : Option Char) : List Char → Bool
  | [] => false
  | c :: rest =>
      (lowerHeadMatch pat prev (c :: rest) && rightBoundary ((c :: rest).drop pat.length)) ||
      testWordBounded pat (some c) rest

/-- `/\bcontent-disposition\b/i.test(key)`. -/
def testContentDisposition (key : String) : Bool :=
  testWordBounded "content-disposition".data none key.data

/-- `/\bcontent-type\b/i.test(key)`. -/
def testContentType (key : String) : Bool :=
  testWordBounded "content-type".data none key.data

/-- Capture of `(?:"([^"]+)"|([^;]+))` at the position right after a matched
`filename=` (the regex engine tries the quoted alternative first, then the
unquoted one; `none` means both fail and the scan moves on). -/
def fileNameCapture (s : List Char) : Option (List Char) :=
  match s with
  | '"' :: rest =>
      let inner := rest.takeWhile (fun c => c != '"')
      if inner.length > 0 && rest.drop inner.length != [] then some inner
      else some (('"' :: rest).takeWhile (fun c => c != ';'))
  | _ =>
      let run := s.takeWhile (fun c => c != ';')
      if run.isEmpty then none else some run

/-- `value.match(/\bfilename=(?:"([^"]+)"|([^;]+))/i)`: first position where
the whole pattern matches; the captured group is returned. -/
def matchFileNameAttr (prev : Option Char) : List Char → Option (List Char)
  | [] => none
  | c :: rest =>
      let here :=
        if lowerHeadMatch "filename=".data prev (c :: rest) then
          fileNameCapture ((c :: rest).drop 9)
        else none
      match here with
      | some r => some r
      | none => matchFileNameAttr (some c) rest

/-- Characters of `[\w-+]`: word characters, hyphen and plus. -/
def isMimeTailChar (c : Char) : Bool := isWordChar c || c == '-' || c == '+'

/-- `value.match(/\b(image\/[\w-+]+)/i)`: first position where `image/` is
matched case-insensitively after a word boundary and is followed by at
least one `[\w-+]` character; the capture keeps the original casing. -/
def matchImageMime (prev : Option Char) : List Char → Option (List Char)
  | [] => none
  | c :: rest =>
      let here :=
        if lowerHeadMatch "image/".data prev (c :: rest) then
          let tail := ((c :: rest).drop 6).takeWhile isMimeTailChar
          if tail.isEmpty then none else some ((c :: rest).take 6 ++ tail)
        else none
      match here with
      | some r => some r
      | none => matchImageMime (some c) rest

/-- The two mutable locals of the `find` callback in `getImageNameAndType`. -/
structure ScanState where
  fileName : Option String
  mimeType : Option String
deriving DecidableEq, Repr

/-- `fileName?.endsWith(ext)` coerced to a boolean. -/
def fileNameEnds (st : ScanState) (ext : String) : Bool :=
  match st.fileName with
  | some f => jsEndsWith f ext
  | none => false

/-- `url.searchParams.get(key)`: the first value recorded for the key
(the key always comes from `keys()`, so the default is never reached). -/
def getParam (params : List (String × String)) (k : String) : String :=
  ((params.find? (fun p => p.1 == k)).map (fun p => p.2)).getD ""

/-- One iteration of the `for (const key of url.searchParams.keys())` loop
of the `find` callback: capture a filename or MIME type, or test the value
for the extension suffix, following the source's `else if` chain. -/
def paramStep (ext : String) (acc : ScanState × Bool) (k v : String) : ScanState × Bool :=
  let st := acc.1
  let found := acc.2
  if st.fileName.isNone && testContentDisposition k then
    match matchFileNameAttr none v.data with
    | some f => ({ st with fileName := some (String.mk f) }, found)
    | none => (st, found)
  else if st.mimeType.isNone && testContentType k then
    match matchImageMime none v.data with
    | some m => ({ st with mimeType := some (String.mk m) }, found)
    | none => (st, found)
  else if !found && jsEndsWith v ext then
    (st, true)
  else
    (st, found)

/-- The whole search-params loop for one candidate extension; the boolean is
the callback's `foundInSearchParams`. -/
def paramScan (params : List (String × String)) (ext : String) (st : ScanState) :
    ScanState × Bool :=
  params.foldl (fun acc p => paramStep ext acc p.1 (getParam params p.1)) (st, false)

/-- `imageExtensions.find(...)` with its stateful callback.  Besides the
source's observables the model also returns, with the selected extension,
the state as it stood right before the basename check of the selecting
iteration, so that theorems can speak about the captured filename. -/
def scanExts (basename : String) (params : List (String × String)) :
    List String → ScanState → Option (String × ScanState) × ScanState
  | [], st => (none, st)
  | ext :: rest, st =>
      let pr := paramScan params ext st
      if jsEndsWith basename ext then
        (some (ext, pr.1),
         if fileNameEnds pr.1 ext then pr.1 else { pr.1 with fileName := some basename })
      else if pr.2 || fileNameEnds pr.1 ext || (pr.1.mimeType == mimeForExtension ext) then
        (some (ext, pr.1), pr.1)
      else scanExts basename params rest pr.1

/-- A parsed `URL` value: path and ordered search parameters. -/
structure JSURL where
  pathname : String
  searchParams : List (String × String)
deriving DecidableEq, Repr

/-- `url.pathname.split("/").at(-1) ?? ""`. -/
def basenameOf (u : JSURL) : String :=
  String.mk ((splitSlash u.pathname.data).getLastD [])

/-- The full extension scan of a structured URL. -/
def scanURL (u : JSURL) : Option (String × ScanState) × ScanState :=
  scanExts (basenameOf u) u.searchParams imageExtensions ⟨none, none⟩

/-- The extension after `extension ??= defaultExtension`. -/
def resolvedExtension (u : JSURL) (d : Option String) : Option String :=
  match (scanURL u).1 with
  | some (e, _) => some e
  | none => d

/-- The string overload of `getImageNameAndType`: suffix scan with default
fallback (`extension ? [url, map.get(extension)] : [undefined, undefined]`;
table extensions are nonempty, so the truthiness guard only matters for a
hypothetical empty default). -/
def getImageNameAndTypeStr (s : String) (d : Option String) :
    Option String × Option String :=
  let extension :=
    match imageExtensions.find? (fun ext => jsEndsWith s ext) with
    | some e => some e
    | none => d
  match extension with
  | some e => if e = "" then (none, none) else (some s, mimeForExtension e)
  | none => (none, none)

/-- The `URL` overload of `getImageNameAndType`.  `nanoid` is the id the
source draws from `nanoid()`; `${extension}` of an `undefined` extension is
the string `"undefined"`, as in JavaScript template literals. -/
def getImageNameAndTypeURL (u : JSURL) (d : Option String) (nanoid : String) :
    Option String × Option String :=
  let st := (scanURL u).2
  let extension := resolvedExtension u d
  let impliedMimeType :=
    match extension with
    | some e => mimeForExtension e
    | none => none
  let mimeType :=
    match impliedMimeType with
    | some m => some m
    | none => st.mimeType
  match mimeType with
  | some m =>
      if m = "" then (none, none)
      else
        (some (match st.fileName with
               | some f => f
               | none =>
                   nanoid ++ "." ++ (match extension with
                                     | some e => e
                                     | none => "undefined")),
         some m)
  | none => (none, none)

/-- The `string | URL` argument of `getImageNameAndType`. -/
inductive URLInput
  | str (s : String)
  | url (u : JSURL)
deriving DecidableEq, Repr

/-- `getImageNameAndType` with its `typeof url === "string"` dispatch. -/
def getImageNameAndType (input : URLInput) (d : Option String) (nanoid : String) :
    Option String × Option String :=
  match input with
  | .str s => getImageNameAndTypeStr s d
  | .url u => getImageNameAndTypeURL u d nanoid

/-- A browser `File`: inherent name and MIME type, plus the outcome the
platform `FileReader` would produce for it (`Except.error` is a rejected
read, the payload is the byte list of the `ArrayBuffer`). -/
structure JSFile where
  name : String
  type : String
  readResult : Except String (List Nat)
deriving Repr

/-- The `File | URL | string` argument of `getImageType`. -/
inductive FileOrURL
  | file (f : JSFile)
  | url (u : JSURL)
  | str (s : String)
deriving Repr

/-- `getImageName`: a `File`'s inherent name, else the first component of
`getImageNameAndType`. -/
def getImageName (x : FileOrURL) (nanoid : String) : Option String :=
  match x with
  | .file f => some f.name
  | .url u => (getImageNameAndTypeURL u none nanoid).1
  | .str s => (getImageNameAndTypeStr s none).1

/-- `getImageType`: a `File`'s inherent type, else the second component of
`getImageNameAndType`. -/
def getImageType (x : FileOrURL) (nanoid : String) : Option String :=
  match x with
  | .file f => some f.type
  | .url u => (getImageNameAndTypeURL u none nanoid).2
  | .str s => (getImageNameAndTypeStr s none).2

/-- `UploadingFileData`: the `source` discriminator selects a raw `File` or
a URL (the source parses `fileData.url` with `new URL`; the model stores
the already-parsed URL). -/
inductive UploadingFileData
  | fileSource (assetId objectURL : String) (file : JSFile)
  | urlSource (assetId objectURL : String) (url : JSURL)
deriving Repr

/-- The `assetId` field common to both variants. -/
def UploadingFileData.assetId : UploadingFileData → String
  | .fileSource a _ _ => a
  | .urlSource a _ _ => a

/-- The `objectURL` field common to both variants. -/
def UploadingFileData.objectURL : UploadingFileData → String
  | .fileSource _ o _ => o
  | .urlSource _ o _ => o

/-- A JavaScript number that is only ever `NaN` or an integer in this
module (no arithmetic is performed on it). -/
inductive JSNum
  | nan
  | int (n : Int)
deriving DecidableEq, Repr

/-- The image variant's `meta`. -/
structure ImageMeta where
  width : JSNum
  height : JSNum
deriving DecidableEq, Repr

/-- The font variant's `meta`. -/
structure FontMeta where
  family : String
  style : String
  weight : Nat
deriving DecidableEq, Repr

/-- The `meta` of an `Asset`, image or font shaped. -/
inductive AssetMeta
  | image (m : ImageMeta)
  | font (m : FontMeta)
deriving DecidableEq, Repr

/-- An `Asset` (the union of `ImageAsset` and `FontAsset` fields used
here; `type` is the discriminant string). -/
structure Asset where
  id : String
  name : String
  format : String
  type : String
  description : String
  createdAt : String
  projectId : String
  size : Nat
  meta : AssetMeta
deriving DecidableEq, Repr

/-- `mimeType.split("/")[1]`: the segment between the first and second
slash.  When the index is out of range the JS value is `undefined`; that
can only happen when the MIME type has no slash at all, in which case the
source never reads `format` (the image branch requires an `image/`
prefix), so the model's `""` default is unobservable. -/
def mimeFormat (m : String) : String :=
  String.mk ((splitSlash m.data).getD 1 [])

/-- Everything after the first `/` of a MIME type: the specification's
phrase "the substring after the `/`", stated independently of the code. -/
def mimeSubstringAfterSlash (m : String) : String :=
  String.mk ((m.data.dropWhile (fun c => c != '/')).drop 1)

/-- The `mimeType` local of `uploadingFileDataToAsset`:
`getImageType(...) ?? "image/png"` (the default fires only on
`undefined`, not on an empty string). -/
def resolvedMimeType (fd : UploadingFileData) (nanoid : String) : String :=
  match fd with
  | .fileSource _ _ f => (getImageType (.file f) nanoid).getD "image/png"
  | .urlSource _ _ u => (getImageType (.url u) nanoid).getD "image/png"

/-- `uploadingFileDataToAsset`: an image-tagged asset with NaN dimensions
when the MIME type starts with `image/`, otherwise a font-tagged asset
with hardcoded `woff2` format and system font metadata. -/
def uploadingFileDataToAsset (fd : UploadingFileData) (nanoid : String) : Asset :=
  let mimeType := resolvedMimeType fd nanoid
  let format := mimeFormat mimeType
  if jsStartsWith mimeType "image/" then
    { id := fd.assetId
      name := fd.objectURL
      format := format
      type := "image"
      description := ""
      createdAt := ""
      projectId := ""
      size := 0
      meta := AssetMeta.image ⟨JSNum.nan, JSNum.nan⟩ }
  else
    { id := fd.assetId
      name := fd.objectURL
      format := "woff2"
      type := "font"
      description := ""
      createdAt := ""
      projectId := ""
      size := 0
      meta := AssetMeta.font ⟨"system", "normal", 400⟩ }

/-- UTF-8 encoding of one character (the `TextEncoder` encoding), as
byte values. -/
def utf8EncodeCharNat (c : Char) : List Nat :=
  let n := c.toNat
  if n < 128 then [n]
  else if n < 2048 then [192 + n / 64, 128 + n % 64]
  else if n < 65536 then [224 + n / 4096, 128 + n / 64 % 64, 128 + n % 64]
  else [240 + n / 262144, 128 + n / 4096 % 64, 128 + n / 64 % 64, 128 + n % 64]

/-- `new TextEncoder().encode(data)`: UTF-8 bytes of the string. -/
def utf8Encode (s : String) : List Nat :=
  s.data.foldr (fun c acc => utf8EncodeCharNat c ++ acc) []

/-- Rotate a 32-bit word right by `n` (words are `Nat`s below `2 ^ 32`). -/
def rotr (n x : Nat) : Nat :=
  ((x >>> n) ||| (x <<< (32 - n))) % 4294967296

/-- The SHA-256 small sigma 0 function. -/
def ssig0 (x : Nat) : Nat := rotr 7 x ^^^ rotr 18 x ^^^ (x >>> 3)

/-- The SHA-256 small sigma 1 function. -/
def ssig1 (x : Nat) : Nat := rotr 17 x ^^^ rotr 19 x ^^^ (x >>> 10)

/-- The SHA-256 big sigma 0 function. -/
def bsig0 (x : Nat) : Nat := rotr 2 x ^^^ rotr 13 x ^^^ rotr 22 x

/-- The SHA-256 big sigma 1 function. -/
def bsig1 (x : Nat) : Nat := rotr 6 x ^^^ rotr 11 x ^^^ rotr 25 x

/-- The 64 SHA-256 round constants. -/
def sha256K : List Nat :=
  [1116352408, 1899447441, 3049323471, 3921009573,
   961987163, 1508970993, 2453635748, 2870763221,
   3624381080, 310598401, 607225278, 1426881987,
   1925078388, 2162078206, 2614888103, 3248222580,
   3835390401, 4022224774, 264347078, 604807628,
   770255983, 1249150122, 1555081692, 1996064986,
   2554220882, 2821834349, 2952996808, 3210313671,
   3336571891, 3584528711, 113926993, 338241895,
   666307205, 773529912, 1294757372, 1396182291,
   1695183700, 1986661051, 2177026350, 2456956037,
   2730485921, 2820302411, 3259730800, 3345764771,
   3516065817, 3600352804, 4094571909, 275423344,
   430227734, 506948616, 659060556, 883997877,
   958139571, 1322822218, 1537002063, 1747873779,
   1955562222, 2024104815, 2227730452, 2361852424,
   2428436474, 2756734187, 3204031479, 3329325298]

/-- The SHA-256 initial hash value. -/
def sha256H0 : List Nat :=
  [1779033703, 3144134277, 1013904242, 2773480762,
   1359893119, 2600822924, 528734635, 1541459225]

/-- Big-endian serialization of a 64-bit length field. -/
def beBytes8 (n : Nat) : List Nat :=
  [n / 72057594037927936 % 256, n / 281474976710656 % 256,
   n / 1099511627776 % 256, n / 4294967296 % 256,
   n / 16777216 % 256, n / 65536 % 256, n / 256 % 256, n % 256]

/-- Big-endian serialization of a 32-bit word. -/
def beBytes4 (w : Nat) : List Nat :=
  [w / 16777216 % 256, w / 65536 % 256, w / 256 % 256, w % 256]

/-- SHA-256 padding: `0x80`, zeros up to 56 mod 64, then the bit length. -/
def sha256Pad (msg : List Nat) : List Nat :=
  let padZeros := (119 - msg.length % 64) % 64
  msg ++ [0x80] ++ List.replicate padZeros 0 ++ beBytes8 (msg.length * 8)

/-- Split a byte list into 64-byte blocks, with a structural fuel bound
(each step consumes at least one byte, so `fuel = l.length` suffices). -/
def chunks64Go : Nat → List Nat → List (List Nat)
  | 0, _ => []
  | _, [] => []
  | fuel + 1, c :: rest => ((c :: rest).take 64) :: chunks64Go fuel ((c :: rest).drop 64)

/-- Split a byte list into 64-byte blocks. -/
def chunks64 (l : List Nat) : List (List Nat) :=
  chunks64Go l.length l

/-- Big-endian 32-bit words of a 64-byte block. -/
def toWords : List Nat → List Nat
  | b0 :: b1 :: b2 :: b3 :: rest =>
      (b0 * 16777216 + b1 * 65536 + b2 * 256 + b3) :: toWords rest
  | _ => []

/-- Message schedule extension: append `n` further words to the 16 block
words. -/
def schedule (w16 : List Nat) : Nat → List Nat
  | 0 => w16
  | n + 1 =>
      let w := schedule w16 n
      let t := w.length
      w ++ [(ssig1 (w.getD (t - 2) 0) + w.getD (t - 7) 0 +
             ssig0 (w.getD (t - 15) 0) + w.getD (t - 16) 0) % 4294967296]

/-- One SHA-256 compression round on the state `[a, b, c, d, e, f, g, h]`. -/
def compressRound (st : List Nat) (kw : Nat × Nat) : List Nat :=
  match st with
  | [a, b, c, d, e, f, g, h] =>
      let ch := (e &&& f) ^^^ ((e ^^^ 4294967295) &&& g)
      let t1 := (h + bsig1 e + ch + kw.1 + kw.2) % 4294967296
      let maj := (a &&& b) ^^^ (a &&& c) ^^^ (b &&& c)
      let t2 := (bsig0 a + maj) % 4294967296
      [(t1 + t2) % 4294967296, a, b, c, (d + t1) % 4294967296, e, f, g]
  | _ => st

/-- Compression of one 64-byte block into the running hash. -/
def compressBlock (h : List Nat) (block : List Nat) : List Nat :=
  let w := schedule (toWords block) 48
  let st := (sha256K.zip w).foldl compressRound h
  h.zipWith (fun x y => (x + y) % 4294967296) st

/-- SHA-256 of a byte list: the 32 digest bytes. -/
def sha256Bytes (msg : List Nat) : List Nat :=
  let hs := (chunks64 (sha256Pad msg)).foldl compressBlock sha256H0
  hs.foldr (fun w acc => beBytes4 w ++ acc) []

/-- One hex digit (lowercase, as `Number.prototype.toString(16)` emits). -/
def hexDigit (n : Nat) : Char :=
  if n < 10 then Char.ofNat (48 + n) else Char.ofNat (87 + n)

/-- `byte.toString(16).padStart(2, "0")` for a byte value. -/
def byteToHex (b : Nat) : List Char :=
  [hexDigit (b / 16 % 16), hexDigit (b % 16)]

/-- `bufferToHex`: two zero-padded lowercase hex digits per byte, joined. -/
def bufferToHex (bytes : List Nat) : String :=
  String.mk (bytes.foldr (fun b acc => byteToHex b ++ acc) [])

/-- `getSha256Hash`: UTF-8 encode, digest, hex encode. -/
def getSha256Hash (data : String) : String :=
  bufferToHex (sha256Bytes (utf8Encode data))

/-- `readFileAsArrayBuffer`: resolves with the file's bytes or rejects with
the `FileReader`'s error, exactly as recorded on the file. -/
def readFileAsArrayBuffer (f : JSFile) : Except String (List Nat) :=
  f.readResult

/-- `getSha256HashOfFile`: await the binary read (propagating a rejection
unchanged), then digest and hex encode. -/
def getSha256HashOfFile (f : JSFile) : Except String String :=
  match readFileAsArrayBuffer f with
  | .error e => .error e
  | .ok buf => .ok (bufferToHex (sha256Bytes buf))

/-- A file-sourced upload whose inherent MIME type has two slashes: the
input of the C6 counterexample. -/
def twoSlashUpload : UploadingFileData :=
  .fileSource "asset-1" "blob:demo" ⟨"payload.bin", "image/x/y", .ok []⟩

/-- Lowercase hex digits, as a character list. -/
def hexAlphabet : List Char := "0123456789abcdef".data

/-- Invariant of the scan state: a captured MIME hint is never the empty
string (the `image/...` capture always keeps at least seven characters),
so the source's final truthiness test on `mimeType` cannot see `""`. -/
def mimeOk (st : ScanState) : Prop :=
  ∀ m, st.mimeType = some m → m ≠ ""

end AssetUtils

namespace AssetUtils

theorem ext_mem_ne_empty : ∀ e ∈ imageExtensions, e ≠ "" := by decide

theorem mimeForExtension_of_mem {e : String} (he : e ∈ imageExtensions) :
    ∃ m, mimeForExtension e = some m ∧ m ≠ "" := by
  simp only [imageExtensions, imageExtensionToMime, List.map_cons, List.map_nil,
    List.mem_cons, List.not_mem_nil, or_false] at he
  rcases he with rfl | rfl | rfl | rfl | rfl | rfl | rfl <;> exact ⟨_, rfl, by decide⟩

theorem indexOfAux_mem {m : String} :
    ∀ (l : List String) (i j : Nat), indexOfAux m l i = some j → m ∈ l := by
  intro l
  induction l with
  | nil => intro i j h; simp [indexOfAux] at h
  | cons x rest ih =>
      intro i j h
      simp only [indexOfAux] at h
      by_cases hx : (x == m) = true
      · exact (beq_iff_eq.mp hx) ▸ List.mem_cons_self x rest
      · rw [Bool.not_eq_true] at hx
        rw [hx] at h
        simp only [Bool.false_eq_true, if_false] at h
        exact List.mem_cons_of_mem x (ih (i + 1) j h)

/-- C5: on every MIME type of the table, `getImageExtensionForMimeType`
returns the first extension, in declaration order, that maps to it (so
`image/jpeg` yields `.jpeg`); on a MIME type outside the table it returns
`undefined`. -/
theorem getImageExtensionForMimeType_spec :
    (∀ m ∈ imageMimeTypes, getImageExtensionForMimeType m = firstExtensionForMime m) ∧
    getImageExtensionForMimeType "image/jpeg" = some ".jpeg" ∧
    (∀ m : String, m ∉ imageMimeTypes → getImageExtensionForMimeType m = none) := by
  refine ⟨by decide, by decide, ?_⟩
  intro m hm
  unfold getImageExtensionForMimeType
  cases h : indexOfAux m imageMimeTypes 0 with
  | none => rfl
  | some i => exact absurd (indexOfAux_mem imageMimeTypes 0 i h) hm

theorem getImageExtensionForMimeType_spec_witness :
    getImageExtensionForMimeType "image/png" = firstExtensionForMime "image/png" ∧
    getImageExtensionForMimeType "text/plain" = none :=
  ⟨getImageExtensionForMimeType_spec.1 "image/png" (by decide),
   getImageExtensionForMimeType_spec.2.2 "text/plain" (by decide)⟩

/-- C10: a file-sourced upload whose `File` has the empty string as its
inherent MIME type does not get the `image/png` default (which only
replaces a nullish value), so the asset is font-tagged with format
`woff2`. -/
theorem uploadingFileDataToAsset_emptyType_font
    (assetId objectURL fname : String) (r : Except String (List Nat)) (n : String) :
    resolvedMimeType (.fileSource assetId objectURL ⟨fname, "", r⟩) n = "" ∧
    (uploadingFileDataToAsset (.fileSource assetId objectURL ⟨fname, "", r⟩) n).type = "font" ∧
    (uploadingFileDataToAsset (.fileSource assetId objectURL ⟨fname, "", r⟩) n).format = "woff2" :=
  ⟨rfl, rfl, rfl⟩

/-- C9: `getSha256HashOfFile` propagates a failed binary read as exactly
the reader's error, and on a successful read returns the hex encoded
SHA-256 digest of the bytes read. -/
theorem getSha256HashOfFile_propagates :
    (∀ (f : JSFile) (err : String), f.readResult = .error err →
        getSha256HashOfFile f = .error err) ∧
    (∀ (f : JSFile) (bytes : List Nat), f.readResult = .ok bytes →
        getSha256HashOfFile f = .ok (bufferToHex (sha256Bytes bytes))) := by
  constructor
  · intro f err h
    unfold getSha256HashOfFile readFileAsArrayBuffer
    rw [h]
  · intro f bytes h
    unfold getSha256HashOfFile readFileAsArrayBuffer
    rw [h]

theorem getSha256HashOfFile_propagates_witness :
    getSha256HashOfFile ⟨"f", "t", .error "NotReadableError"⟩ = .error "NotReadableError" ∧
    getSha256HashOfFile ⟨"f", "t", .ok []⟩ = .ok (bufferToHex (sha256Bytes [])) :=
  ⟨getSha256HashOfFile_propagates.1 _ "NotReadableError" rfl,
   getSha256HashOfFile_propagates.2 _ [] rfl⟩

theorem bufferToHex_length (bytes : List Nat) :
    (bufferToHex bytes).length = 2 * bytes.length := by
  show (bytes.foldr (fun b acc => byteToHex b ++ acc) []).length = 2 * bytes.length
  induction bytes with
  | nil => rfl
  | cons b rest ih =>
      simp only [List.foldr_cons, List.length_append, List.length_cons, ih]
      simp [byteToHex]
      ring

theorem compressRound_length {st : List Nat} (kw : Nat × Nat) (h : st.length = 8) :
    (compressRound st kw).length = 8 := by
  unfold compressRound
  split
  · rfl
  · exact h

theorem foldl_compressRound_length (l : List (Nat × Nat)) :
    ∀ st : List Nat, st.length = 8 → (l.foldl compressRound st).length = 8 := by
  induction l with
  | nil => intro st h; exact h
  | cons kw rest ih =>
      intro st h
      exact ih (compressRound st kw) (compressRound_length kw h)

theorem compressBlock_length {h : List Nat} (block : List Nat) (hl : h.length = 8) :
    (compressBlock h block).length = 8 := by
  unfold compressBlock
  rw [List.length_zipWith, hl,
    foldl_compressRound_length (sha256K.zip (schedule (toWords block) 48)) h hl]
  rfl

theorem foldl_compressBlock_length (blocks : List (List Nat)) :
    ∀ h : List Nat, h.length = 8 → (blocks.foldl compressBlock h).length = 8 := by
  induction blocks with
  | nil => intro h hl; exact hl
  | cons b rest ih =>
      intro h hl
      exact ih (compressBlock h b) (compressBlock_length b hl)

theorem foldr_beBytes4_length (hs : List Nat) :
    (hs.foldr (fun w acc => beBytes4 w ++ acc) []).length = 4 * hs.length := by
  induction hs with
  | nil => rfl
  | cons w rest ih =>
      simp only [List.foldr_cons, List.length_append, List.length_cons, ih]
      simp [beBytes4]
      ring

theorem sha256Bytes_length (msg : List Nat) : (sha256Bytes msg).length = 32 := by
  unfold sha256Bytes
  rw [foldr_beBytes4_length, foldl_compressBlock_length _ sha256H0 rfl]

theorem hexDigit_mod_mem (x : Nat) : hexDigit (x % 16) ∈ hexAlphabet := by
  have h : ∀ m, m < 16 → hexDigit m ∈ hexAlphabet := by decide
  exact h (x % 16) (Nat.mod_lt x (by norm_num))

theorem mem_bufferToHex {c : Char} :
    ∀ bytes : List Nat, c ∈ (bufferToHex bytes).data → c ∈ hexAlphabet := by
  intro bytes
  show c ∈ bytes.foldr (fun b acc => byteToHex b ++ acc) [] → c ∈ hexAlphabet
  induction bytes with
  | nil => intro h; simp at h
  | cons b rest ih =>
      intro h
      simp only [List.foldr_cons, List.mem_append] at h
      rcases h with h | h
      · simp only [byteToHex, List.mem_cons, List.not_mem_nil, or_false] at h
        rcases h with rfl | rfl
        · exact hexDigit_mod_mem (b / 16)
        · exact hexDigit_mod_mem b
      · exact ih h

/-- C8: `getSha256Hash` is the lowercase zero-padded hex encoding of the
SHA-256 digest of the UTF-8 bytes of its input: the hex encoding yields
two digits per byte, every output is 64 lowercase hex characters, and the
empty string hashes to the well-known empty-input digest. -/
theorem getSha256Hash_spec :
    getSha256Hash "" = "e3b0c44298fc1c149afbf4c8996fb92427ae41e4649b934ca495991b7852b855" ∧
    (∀ bytes : List Nat, (bufferToHex bytes).length = 2 * bytes.length) ∧
    (∀ s : String, (getSha256Hash s).length = 64) ∧
    (∀ s : String, ∀ c ∈ (getSha256Hash s).data, c ∈ hexAlphabet) := by
  refine ⟨by decide, bufferToHex_length, ?_, ?_⟩
  · intro s
    show (bufferToHex (sha256Bytes (utf8Encode s))).length = 64
    rw [bufferToHex_length, sha256Bytes_length]
  · intro s c hc
    exact mem_bufferToHex (sha256Bytes (utf8Encode s)) hc

theorem getSha256Hash_spec_witness :
    (getSha256Hash "a").length = 64 ∧ 'e' ∈ hexAlphabet :=
  ⟨getSha256Hash_spec.2.2.1 "a",
   getSha256Hash_spec.2.2.2 "" 'e' (by decide)⟩

theorem scanExts_sel (b : String) (p : List (String × String)) :
    ∀ (l : List String) (st : ScanState) {e : String} {stPre : ScanState},
      (scanExts b p l st).1 = some (e, stPre) →
      e ∈ l ∧
      (scanExts b p l st).2 =
        (if jsEndsWith b e then
          (if fileNameEnds stPre e then stPre else { stPre with fileName := some b })
         else stPre) := by
  intro l
  induction l with
  | nil => intro st e stPre h; simp [scanExts] at h
  | cons x rest ih =>
      intro st e stPre h
      simp only [scanExts] at h ⊢
      by_cases hb : jsEndsWith b x = true
      · rw [if_pos hb] at h
        obtain ⟨rfl, rfl⟩ : x = e ∧ (paramScan p x st).1 = stPre := by
          simpa using h
        refine ⟨List.mem_cons_self _ _, ?_⟩
        simp [hb]
      · rw [Bool.not_eq_true] at hb
        rw [hb] at h
        simp only [Bool.false_eq_true, if_false] at h
        by_cases hc : ((paramScan p x st).2 || fileNameEnds (paramScan p x st).1 x ||
            ((paramScan p x st).1.mimeType == mimeForExtension x)) = true
        · rw [if_pos hc] at h
          obtain ⟨rfl, rfl⟩ : x = e ∧ (paramScan p x st).1 = stPre := by
            simpa using h
          refine ⟨List.mem_cons_self _ _, ?_⟩
          simp [hb, hc]
        · rw [Bool.not_eq_true] at hc
          rw [hc] at h
          simp only [Bool.false_eq_true, if_false] at h
          obtain ⟨hmem, hst⟩ := ih (paramScan p x st).1 h
          refine ⟨List.mem_cons_of_mem _ hmem, ?_⟩
          rw [hb, hc] at *
          simpa [hb, hc] using hst

theorem getURL_of_resolved (u : JSURL) (d : Option String) (n : String) {e m : String}
    (h1 : resolvedExtension u d = some e) (hm : mimeForExtension e = some m)
    (hm0 : m ≠ "") :
    getImageNameAndTypeURL u d n =
      (some (match (scanURL u).2.fileName with
             | some f => f
             | none => n ++ "." ++ e),
       some m) := by
  simp only [getImageNameAndTypeURL, h1, hm]
  simp [hm0]

theorem getURL_of_unresolved (u : JSURL) (d : Option String) (n : String)
    (h1 : resolvedExtension u d = none) (h2 : (scanURL u).2.mimeType = none) :
    getImageNameAndTypeURL u d n = (none, none) := by
  simp only [getImageNameAndTypeURL, h1, h2]

theorem matchImageMime_ne_nil :
    ∀ (l : List Char) (prev : Option Char) (r : List Char),
      matchImageMime prev l = some r → r ≠ [] := by
  intro l
  induction l with
  | nil => intro prev r h; simp [matchImageMime] at h
  | cons c rest ih =>
      intro prev r h
      simp only [matchImageMime] at h
      by_cases hb : lowerHeadMatch "image/".data prev (c :: rest) = true
      · rw [if_pos hb] at h
        by_cases ht : (((c :: rest).drop 6).takeWhile isMimeTailChar).isEmpty = true
        · rw [if_pos ht] at h
          exact ih (some c) r h
        · rw [if_neg ht] at h
          simp only [Option.some.injEq] at h
          intro hr
          rw [← h] at hr
          have := (List.append_eq_nil.mp hr).2
          rw [List.isEmpty_iff] at ht
          exact ht this
      · rw [if_neg hb] at h
        exact ih (some c) r h

theorem matchImageMime_ne_empty {v r : List Char}
    (h : matchImageMime none v = some r) : String.mk r ≠ "" := by
  intro he
  have hr : r = [] := congrArg String.data he
  exact matchImageMime_ne_nil v none r h hr

theorem paramStep_mimeOk (ext k v : String) (acc : ScanState × Bool)
    (h : mimeOk acc.1) : mimeOk (paramStep ext acc k v).1 := by
  simp only [paramStep]
  by_cases h1 : (acc.1.fileName.isNone && testContentDisposition k) = true
  · rw [if_pos h1]
    cases hm : matchFileNameAttr none v.data with
    | some f => intro m hmm; exact h m hmm
    | none => exact h
  · rw [if_neg h1]
    by_cases h2 : (acc.1.mimeType.isNone && testContentType k) = true
    · rw [if_pos h2]
      cases hm : matchImageMime none v.data with
      | some r =>
          intro m hmm
          have hms : some (String.mk r) = some m := hmm
          rw [← Option.some.inj hms]
          exact matchImageMime_ne_empty hm
      | none => exact h
    · rw [if_neg h2]
      by_cases h3 : (!acc.2 && jsEndsWith v ext) = true
      · rw [if_pos h3]; exact h
      · rw [if_neg h3]; exact h

theorem foldl_paramStep_mimeOk (params : List (String × String)) (ext : String) :
    ∀ (l : List (String × String)) (acc : ScanState × Bool), mimeOk acc.1 →
      mimeOk ((l.foldl (fun acc p => paramStep ext acc p.1 (getParam params p.1))
        acc)).1 := by
  intro l
  induction l with
  | nil => intro acc h; exact h
  | cons p rest ih =>
      intro acc h
      exact ih _ (paramStep_mimeOk ext p.1 (getParam params p.1) acc h)

theorem paramScan_mimeOk (params : List (String × String)) (ext : String)
    (st : ScanState) (h : mimeOk st) : mimeOk (paramScan params ext st).1 :=
  foldl_paramStep_mimeOk params ext params (st, false) h

theorem scanExts_mimeOk (b : String) (p : List (String × String)) :
    ∀ (l : List String) (st : ScanState), mimeOk st →
      mimeOk (scanExts b p l st).2 := by
  intro l
  induction l with
  | nil => intro st h; exact h
  | cons x rest ih =>
      intro st h
      have hpr : mimeOk (paramScan p x st).1 := paramScan_mimeOk p x st h
      simp only [scanExts]
      by_cases hb : jsEndsWith b x = true
      · rw [if_pos hb]
        show mimeOk (if fileNameEnds (paramScan p x st).1 x then (paramScan p x st).1
          else { (paramScan p x st).1 with fileName := some b })
        split
        · exact hpr
        · intro m hm; exact hpr m hm
      · rw [if_neg hb]
        by_cases hc : ((paramScan p x st).2 || fileNameEnds (paramScan p x st).1 x ||
            ((paramScan p x st).1.mimeType == mimeForExtension x)) = true
        · rw [if_pos hc]; exact hpr
        · rw [if_neg hc]; exact ih _ hpr

theorem scanURL_mimeOk (u : JSURL) : mimeOk (scanURL u).2 :=
  scanExts_mimeOk (basenameOf u) u.searchParams imageExtensions ⟨none, none⟩
    (fun m hm => by simp at hm)

/-- C1 (amended): with no default extension, both outputs are absent when
the suffix and query scan resolves no extension and, for a structured URL,
no `image/*` MIME hint was captured from a `content-type` parameter either.
When such a hint was captured while no extension resolved, the source
instead returns the captured hint as the MIME type, together with the
captured `content-disposition` filename when one was captured and a
synthesized `<nanoid>.undefined` filename otherwise. -/
theorem getImageNameAndType_absent_of_no_extension_no_hint :
    (∀ (s : String) (n : String),
        imageExtensions.find? (fun ext => jsEndsWith s ext) = none →
        getImageNameAndType (.str s) none n = (none, none)) ∧
    (∀ (u : JSURL) (n : String),
        (scanURL u).1 = none → (scanURL u).2.mimeType = none →
        getImageNameAndType (.url u) none n = (none, none)) ∧
    (∀ (u : JSURL) (n m : String),
        (scanURL u).1 = none → (scanURL u).2.mimeType = some m →
        getImageNameAndType (.url u) none n =
          (some (match (scanURL u).2.fileName with
                 | some f => f
                 | none => n ++ "." ++ "undefined"),
           some m)) := by
  refine ⟨?_, ?_, ?_⟩
  · intro s n h
    show getImageNameAndTypeStr s none = (none, none)
    unfold getImageNameAndTypeStr
    rw [h]
  · intro u n h1 h2
    show getImageNameAndTypeURL u none n = (none, none)
    have hr : resolvedExtension u none = none := by
      unfold resolvedExtension
      rw [h1]
    exact getURL_of_unresolved u none n hr h2
  · intro u n m h1 h2
    have hm0 : m ≠ "" := scanURL_mimeOk u m h2
    have hr : resolvedExtension u none = none := by
      unfold resolvedExtension
      rw [h1]
    show getImageNameAndTypeURL u none n = _
    simp only [getImageNameAndTypeURL, hr, h2]
    simp [hm0]

theorem getImageNameAndType_absent_witness :
    getImageNameAndType (.str "noext") none "id" = (none, none) ∧
    getImageNameAndType (.url ⟨"/plain", []⟩) none "id" = (none, none) ∧
    getImageNameAndType
        (.url ⟨"/x", [("content-disposition", "filename=doc.txt"),
                      ("content-type", "image/avif")]⟩) none "id" =
      (some "doc.txt", some "image/avif") ∧
    getImageNameAndType (.url ⟨"/y", [("content-type", "image/avif")]⟩) none "id" =
      (some "id.undefined", some "image/avif") :=
  ⟨getImageNameAndType_absent_of_no_extension_no_hint.1 "noext" "id" (by decide),
   getImageNameAndType_absent_of_no_extension_no_hint.2.1 ⟨"/plain", []⟩ "id"
     (by decide) (by decide),
   (getImageNameAndType_absent_of_no_extension_no_hint.2.2
       ⟨"/x", [("content-disposition", "filename=doc.txt"),
               ("content-type", "image/avif")]⟩ "id" "image/avif"
       (by decide) (by decide)).trans (by decide),
   (getImageNameAndType_absent_of_no_extension_no_hint.2.2
       ⟨"/y", [("content-type", "image/avif")]⟩ "id" "image/avif"
       (by decide) (by decide)).trans (by decide)⟩

/-- C1 (counterexample): a structured URL whose `content-type` query
parameter carries an `image/*` value outside the extension table resolves
no extension, yet `getImageNameAndType` with no default returns the
captured hint with a synthesized `<id>.undefined` filename rather than
`(undefined, undefined)`. -/
theorem contentTypeHint_no_extension_not_absent :
    (scanURL ⟨"/x", [("content-type", "image/avif")]⟩).1 = none ∧
    getImageNameAndType (.url ⟨"/x", [("content-type", "image/avif")]⟩) none "id" =
      (some "id.undefined", some "image/avif") ∧
    getImageNameAndType (.url ⟨"/x", [("content-type", "image/avif")]⟩) none "id" ≠
      (none, none) := by
  refine ⟨by decide, by decide, ?_⟩
  decide

/-- C3: for a structured URL, whenever an extension is resolved (by the
scan or by the supplied default from the table), the returned MIME type is
that extension's mapped MIME type, regardless of any captured
`content-type` hint. -/
theorem getImageNameAndType_extension_authoritative
    (u : JSURL) (d : Option String) (n : String) {e : String}
    (h1 : resolvedExtension u d = some e) (he : e ∈ imageExtensions) :
    (getImageNameAndTypeURL u d n).2 = mimeForExtension e := by
  obtain ⟨m, hm, hm0⟩ := mimeForExtension_of_mem he
  rw [getURL_of_resolved u d n h1 hm hm0, hm]

theorem getImageNameAndType_extension_authoritative_witness :
    (getImageNameAndTypeURL ⟨"/a/pic.gif", [("content-type", "image/png")]⟩ none "id").2 =
      mimeForExtension ".gif" :=
  getImageNameAndType_extension_authoritative
    ⟨"/a/pic.gif", [("content-type", "image/png")]⟩ none "id" (by decide) (by decide)

/-- C4: with a default extension drawn from the table, both components of
the result are present, for string inputs and for structured URLs alike;
in particular `getImageNameAndType("data.bin", ".jpg")` is
`("data.bin", "image/jpeg")`. -/
theorem getImageNameAndType_default_total :
    (∀ (inp : URLInput) (dd : String) (n : String), dd ∈ imageExtensions →
        (getImageNameAndType inp (some dd) n).1.isSome ∧
        (getImageNameAndType inp (some dd) n).2.isSome) ∧
    (∀ n : String,
        getImageNameAndType (.str "data.bin") (some ".jpg") n =
          (some "data.bin", some "image/jpeg")) := by
  constructor
  · intro inp dd n hd
    cases inp with
    | str s =>
        show (getImageNameAndTypeStr s (some dd)).1.isSome ∧
          (getImageNameAndTypeStr s (some dd)).2.isSome
        unfold getImageNameAndTypeStr
        cases hfind : imageExtensions.find? (fun ext => jsEndsWith s ext) with
        | some e =>
            obtain ⟨m, hm, _⟩ :=
              mimeForExtension_of_mem (List.mem_of_find?_eq_some hfind)
            have hne : e ≠ "" := ext_mem_ne_empty e (List.mem_of_find?_eq_some hfind)
            simp [hfind, hne, hm]
        | none =>
            obtain ⟨m, hm, _⟩ := mimeForExtension_of_mem hd
            have hne : dd ≠ "" := ext_mem_ne_empty dd hd
            simp [hfind, hne, hm]
    | url u =>
        show (getImageNameAndTypeURL u (some dd) n).1.isSome ∧
          (getImageNameAndTypeURL u (some dd) n).2.isSome
        cases hsel : (scanURL u).1 with
        | some pr =>
            have h1 : resolvedExtension u (some dd) = some pr.1 := by
              unfold resolvedExtension
              rw [hsel]
            have hsel2 : (scanExts (basenameOf u) u.searchParams imageExtensions
                ⟨none, none⟩).1 = some (pr.1, pr.2) := hsel
            have hmem : pr.1 ∈ imageExtensions :=
              (scanExts_sel (basenameOf u) u.searchParams imageExtensions
                ⟨none, none⟩ hsel2).1
            obtain ⟨m, hm, hm0⟩ := mimeForExtension_of_mem hmem
            rw [getURL_of_resolved u (some dd) n h1 hm hm0]
            exact ⟨rfl, rfl⟩
        | none =>
            have h1 : resolvedExtension u (some dd) = some dd := by
              unfold resolvedExtension
              rw [hsel]
            obtain ⟨m, hm, hm0⟩ := mimeForExtension_of_mem hd
            rw [getURL_of_resolved u (some dd) n h1 hm hm0]
            exact ⟨rfl, rfl⟩
  · intro n
    rfl

theorem getImageNameAndType_default_total_witness :
    ((getImageNameAndType (.str "photo") (some ".png") "id").1.isSome ∧
      (getImageNameAndType (.str "photo") (some ".png") "id").2.isSome) ∧
    getImageNameAndType (.str "data.bin") (some ".jpg") "id" =
      (some "data.bin", some "image/jpeg") :=
  ⟨getImageNameAndType_default_total.1 (.str "photo") ".png" "id" (by decide),
   getImageNameAndType_default_total.2 "id"⟩

end AssetUtils


namespace AssetUtils

/-- C2: for a structured URL where a filename was captured from a
`content-disposition` query parameter: when the basename ends with the
selected extension, the basename is returned only if the captured
filename does not already end with that extension (otherwise the captured
filename is kept); when the basename does not end with the selected
extension, the captured filename is returned. -/
theorem getImageNameAndType_fileName_preference
    (u : JSURL) (d : Option String) (n : String)
    (e : String) (stPre : ScanState) (f : String)
    (h1 : (scanURL u).1 = some (e, stPre)) (h2 : stPre.fileName = some f) :
    (jsEndsWith (basenameOf u) e = true →
      (getImageNameAndTypeURL u d n).1 =
        some (if jsEndsWith f e then f else basenameOf u)) ∧
    (jsEndsWith (basenameOf u) e = false →
      (getImageNameAndTypeURL u d n).1 = some f) := by
  have h1x : (scanExts (basenameOf u) u.searchParams imageExtensions
      ⟨none, none⟩).1 = some (e, stPre) := h1
  obtain ⟨hmem, hst⟩ := scanExts_sel (basenameOf u) u.searchParams imageExtensions
    ⟨none, none⟩ h1x
  obtain ⟨m, hm, hm0⟩ := mimeForExtension_of_mem hmem
  have hres : resolvedExtension u d = some e := by
    unfold resolvedExtension
    rw [h1]
  have heq := getURL_of_resolved u d n hres hm hm0
  have hsc : (scanURL u).2 = (scanExts (basenameOf u) u.searchParams imageExtensions
      ⟨none, none⟩).2 := rfl
  constructor
  · intro hb
    rw [hsc, hst, if_pos hb] at heq
    by_cases hf : jsEndsWith f e = true
    · have hfe : fileNameEnds stPre e = true := by
        simp [fileNameEnds, h2, hf]
      rw [if_pos hfe, h2] at heq
      rw [heq, if_pos hf]
    · rw [Bool.not_eq_true] at hf
      have hfe : fileNameEnds stPre e = false := by
        simp [fileNameEnds, h2, hf]
      rw [hfe] at heq
      simp only [Bool.false_eq_true, if_false] at heq
      rw [heq, hf]
      simp only [Bool.false_eq_true, if_false]
  · intro hb
    rw [hsc, hst, hb] at heq
    simp only [Bool.false_eq_true, if_false] at heq
    rw [h2] at heq
    rw [heq]

theorem getImageNameAndType_fileName_preference_witness :
    (getImageNameAndTypeURL
        ⟨"/img/photo", [("content-disposition", "attachment; filename=\"cat.webp\"")]⟩
        none "id").1 = some "cat.webp" :=
  (getImageNameAndType_fileName_preference
      ⟨"/img/photo", [("content-disposition", "attachment; filename=\"cat.webp\"")]⟩
      none "id" ".webp" ⟨some "cat.webp", none⟩ "cat.webp"
      (by decide) (by decide)).2 (by decide)

/-- C6 (counterexample): a file-sourced upload whose `File` type is
`image/x/y` resolves to an image asset whose `format` is the split
segment `x`, not the whole substring `x/y` after the first slash. -/
theorem uploadingFileDataToAsset_subtype_counterexample :
    resolvedMimeType twoSlashUpload "id" = "image/x/y" ∧
    (uploadingFileDataToAsset twoSlashUpload "id").type = "image" ∧
    (uploadingFileDataToAsset twoSlashUpload "id").format ≠
      mimeSubstringAfterSlash (resolvedMimeType twoSlashUpload "id") := by
  refine ⟨rfl, rfl, ?_⟩
  decide

/-- C6 (amended): when the resolved MIME type starts with `image/` the
asset is image-tagged with `format` equal to `split("/")[1]` of the MIME
type (the segment between the first and second slash) and NaN dimensions;
otherwise it is font-tagged with format `woff2` and the hardcoded system
font metadata, regardless of the MIME subtype. -/
theorem uploadingFileDataToAsset_spec (fd : UploadingFileData) (n : String) :
    (jsStartsWith (resolvedMimeType fd n) "image/" = true →
      (uploadingFileDataToAsset fd n).type = "image" ∧
      (uploadingFileDataToAsset fd n).format = mimeFormat (resolvedMimeType fd n) ∧
      (uploadingFileDataToAsset fd n).meta = AssetMeta.image ⟨JSNum.nan, JSNum.nan⟩) ∧
    (jsStartsWith (resolvedMimeType fd n) "image/" = false →
      (uploadingFileDataToAsset fd n).type = "font" ∧
      (uploadingFileDataToAsset fd n).format = "woff2" ∧
      (uploadingFileDataToAsset fd n).meta = AssetMeta.font ⟨"system", "normal", 400⟩) := by
  constructor
  · intro h
    simp [uploadingFileDataToAsset, h]
  · intro h
    simp [uploadingFileDataToAsset, h]

theorem uploadingFileDataToAsset_spec_witness :
    (uploadingFileDataToAsset (.fileSource "a" "o" ⟨"f", "image/jpeg", .ok []⟩)
        "id").format = "jpeg" ∧
    (uploadingFileDataToAsset
        (.fileSource "a" "o" ⟨"f", "application/octet-stream", .ok []⟩)
        "id").format = "woff2" :=
  ⟨((uploadingFileDataToAsset_spec (.fileSource "a" "o" ⟨"f", "image/jpeg", .ok []⟩)
      "id").1 (by decide)).2.1.trans (by decide),
   ((uploadingFileDataToAsset_spec
      (.fileSource "a" "o" ⟨"f", "application/octet-stream", .ok []⟩)
      "id").2 (by decide)).2.1⟩

/-- C7: for every table extension and every string ending in it, the
string overload with no default returns the string itself as the filename
together with the MIME type mapped to the matched (first matching)
extension. -/
theorem getImageNameAndType_roundTrip (E s n : String)
    (hE : E ∈ imageExtensions) (hs : jsEndsWith s E = true) :
    ∃ E1, imageExtensions.find? (fun ext => jsEndsWith s ext) = some E1 ∧
      getImageNameAndType (.str s) none n = (some s, mimeForExtension E1) := by
  cases hfind : imageExtensions.find? (fun ext => jsEndsWith s ext) with
  | none =>
      exact absurd hs (by simpa using List.find?_eq_none.mp hfind E hE)
  | some E1 =>
      refine ⟨E1, rfl, ?_⟩
      have hne : E1 ≠ "" := ext_mem_ne_empty E1 (List.mem_of_find?_eq_some hfind)
      show getImageNameAndTypeStr s none = (some s, mimeForExtension E1)
      unfold getImageNameAndTypeStr
      rw [hfind]
      simp [hne]

theorem getImageNameAndType_roundTrip_witness :
    getImageNameAndType (.str "photo.png") none "id" =
      (some "photo.png", some "image/png") := by
  obtain ⟨E1, hfind, hres⟩ :=
    getImageNameAndType_roundTrip ".png" "photo.png" "id" (by decide) (by decide)
  have hone : imageExtensions.find? (fun ext => jsEndsWith "photo.png" ext) =
      some ".png" := by decide
  have hE : E1 = ".png" := Option.some.inj (hfind.symm.trans hone)
  rw [hres, hE]
  rfl

end AssetUtils
